import Mathlib

/-!
Shallow embedding of the GGM-to-OpenRegister generator (`generate.py`) and
verification of its specification claims.

Python strings are modelled as `List Char` (`Str`), Python dicts as ordered
association lists (`List (key × value)`) with dict-style insertion (overwrite
keeps the original position; fresh keys are appended), and JSON values as the
inductive `JVal`.  Optional / nullable database columns are `Option Str`.
-/

set_option maxHeartbeats 1000000

abbrev Str := List Char

/-- String-literal convenience: the character list of a Lean string literal. -/
def chars (s : String) : Str := s.data

/-- A JSON-ish value, as produced by the generator. -/
inductive JVal where
  | str (s : Str) : JVal
  | num (n : Nat) : JVal
  | bool (b : Bool) : JVal
  | arr (xs : List JVal) : JVal
  | obj (fields : List (Str × JVal)) : JVal

/-- Shorthand for a string-valued JSON object field. -/
def sProp (k v : String) : Str × JVal := (chars k, JVal.str (chars v))

/-- Shorthand for a numeric JSON object field. -/
def nProp (k : String) (n : Nat) : Str × JVal := (chars k, JVal.num n)

/-- First-match lookup in an ordered association list (Python `dict[k]` / `get`). -/
def alistGet {α β : Type} [DecidableEq α] : List (α × β) → α → Option β
  | [], _ => none
  | p :: ps, k => if p.1 = k then some p.2 else alistGet ps k

/-- Python `d[k] = v`: overwrite in place if the key exists (keeping its
position), otherwise append at the end. -/
def dictInsert {α β : Type} [DecidableEq α] (m : List (α × β)) (k : α) (v : β) :
    List (α × β) :=
  if k ∈ m.map Prod.fst then m.map (fun p => if p.1 = k then (k, v) else p)
  else m ++ [(k, v)]

/-- Python `if k not in d: d[k] = v`. -/
def dictInsertIfAbsent {α β : Type} [DecidableEq α] (m : List (α × β)) (k : α) (v : β) :
    List (α × β) :=
  if k ∈ m.map Prod.fst then m else m ++ [(k, v)]

/-- `prop[k] = v` on a JSON object value; other values are left unchanged. -/
def jSet (v : JVal) (k : Str) (x : JVal) : JVal :=
  match v with
  | JVal.obj fs => JVal.obj (dictInsert fs k x)
  | other => other

/-- Field lookup on a JSON object value. -/
def jGet (v : JVal) (k : Str) : Option JVal :=
  match v with
  | JVal.obj fs => alistGet fs k
  | _ => none

/-- Python `str.strip()`: drop whitespace from both ends. -/
def trimWs (l : Str) : Str :=
  ((l.dropWhile (fun c => c.isWhitespace)).reverse.dropWhile
    (fun c => c.isWhitespace)).reverse

/-- Lowercasing a string character-by-character (Python `str.lower`,
restricted to the ASCII behaviour that the model data exercises). -/
def strLower (s : Str) : Str := s.map Char.toLower

/-- Nonempty all-decimal-digits test (the regex `\d+` anchored on both sides). -/
def isDigits (l : Str) : Bool := !l.isEmpty && l.all Char.isDigit

/-- Decimal value of a digit string (Python `int(...)` on a digit group). -/
def digitsVal (l : Str) : Nat := l.foldl (fun a c => 10 * a + (c.toNat - 48)) 0

/-- The regex `^N\d+$` from `map_type` (case-sensitive, as in the source). -/
def matchNd (t : Str) : Bool :=
  match t with
  | 'N' :: rest => isDigits rest
  | _ => false

/-- The regex `^N\d+[.,]\d+$` from `map_type`. -/
def matchNdSepd (t : Str) : Bool :=
  match t with
  | 'N' :: rest =>
    let ds := rest.takeWhile Char.isDigit
    if ds.isEmpty then false
    else
      match rest.drop ds.length with
      | sep :: tail => (sep == '.' || sep == ',') && isDigits tail
      | [] => false
  | _ => false

/-- The regex `^AN(\d+)$` from `map_type`, returning the captured length. -/
def matchAN (t : Str) : Option Nat :=
  match t with
  | 'A' :: 'N' :: rest => if isDigits rest then some (digitsVal rest) else none
  | _ => none

/-- The prefix regex `varchar2?\((\d+)\)` from `map_type` (applied to the
lowercased token; trailing text after the closing parenthesis is allowed,
matching `re.match` semantics). -/
def varcharLen (tl : Str) : Option Nat :=
  let parse : Str → Option Nat := fun r =>
    let ds := r.takeWhile Char.isDigit
    if ds.isEmpty then none
    else
      match r.drop ds.length with
      | ')' :: _ => some (digitsVal ds)
      | _ => none
  match tl.drop 7 with
  | '2' :: '(' :: r => parse r
  | '(' :: r => parse r
  | _ => none

/-- `len(t) <= 3 and t.isalpha()` from `map_type`. -/
def shortAlpha (t : Str) : Bool :=
  decide (t.length ≤ 3) && !t.isEmpty && t.all Char.isAlpha

/-- Embedding of `map_type(type_name, length=0)` (generate.py lines 101-191).
The `length` parameter of the source is never read; it is kept for fidelity. -/
def map_type (type_name : Str) (length : Nat) : JVal :=
  if type_name.isEmpty then JVal.obj [sProp "type" "string"] else
  let t := trimWs type_name
  let tl := strLower t
  if tl ∈ [chars "boolean", chars "bool", chars "indic", chars "stdindijn"] then
    JVal.obj [sProp "type" "boolean"]
  else if tl ∈ [chars "int", chars "integer", chars "number"] then
    JVal.obj [sProp "type" "integer"]
  else if matchNd t then JVal.obj [sProp "type" "integer"]
  else if tl ∈ [chars "double", chars "decimal", chars "float"] then
    JVal.obj [sProp "type" "number"]
  else if tl = chars "bedrag" ∨ tl = chars "geldbedrag" then
    JVal.obj [sProp "type" "number"]
  else if matchNdSepd t then JVal.obj [sProp "type" "number"]
  else if tl ∈ [chars "date", chars "datum"] then
    JVal.obj [sProp "type" "string", sProp "format" "date"]
  else if tl ∈ [chars "datetime", chars "datumtijd"] then
    JVal.obj [sProp "type" "string", sProp "format" "date-time"]
  else if tl = chars "time" then
    JVal.obj [sProp "type" "string", sProp "format" "time"]
  else if tl ∈ [chars "jaar", chars "year"] then
    JVal.obj [sProp "type" "string", sProp "format" "date"]
  else if tl = chars "onvolledgedatum" then JVal.obj [sProp "type" "string"]
  else if tl ∈ [chars "url", chars "uri"] then
    JVal.obj [sProp "type" "string", sProp "format" "uri"]
  else if tl = chars "email" then
    JVal.obj [sProp "type" "string", sProp "format" "email"]
  else if tl = chars "iban" then JVal.obj [sProp "type" "string"]
  else if tl = chars "telefoonnummer" then JVal.obj [sProp "type" "string"]
  else if tl ∈ [chars "point", chars "punt", chars "gm_point", chars "gm_punt"] then
    JVal.obj [sProp "type" "string", sProp "format" "geo"]
  else if tl ∈ [chars "gm_surface", chars "gm_multisurface", chars "vlak",
      chars "spatial", chars "gm_curve", chars "gm_lijn", chars "gm_multicurve",
      chars "gm_multipoint", chars "multipuntlijn(multi)vlak"] then
    JVal.obj [sProp "type" "string", sProp "format" "geo"]
  else if tl = chars "guid" then
    JVal.obj [sProp "type" "string", sProp "format" "uuid"]
  else if tl = chars "blob" then
    JVal.obj [sProp "type" "string", sProp "format" "binary"]
  else if tl = chars "image" then
    JVal.obj [sProp "type" "string", sProp "format" "binary"]
  else
    match matchAN t with
    | some n => JVal.obj [sProp "type" "string", nProp "maxLength" n]
    | none =>
      if (chars "varchar").isPrefixOf tl then
        match varcharLen tl with
        | some n => JVal.obj [sProp "type" "string", nProp "maxLength" n]
        | none => JVal.obj [sProp "type" "string", nProp "maxLength" 255]
      else if tl ∈ [chars "char", chars "characterstring", chars "string",
          chars "text", chars "tekst", chars "tan"] then
        JVal.obj [sProp "type" "string"]
      else if shortAlpha t then JVal.obj [sProp "type" "string"]
      else JVal.obj [sProp "type" "string"]

/-- The character class `[a-z0-9\s-]` kept by `slugify`'s first `re.sub`. -/
def keepSlugChar (c : Char) : Bool :=
  decide ((97 ≤ c.toNat ∧ c.toNat ≤ 122) ∨ (48 ≤ c.toNat ∧ c.toNat ≤ 57) ∨
    c.isWhitespace = true ∨ c = '-')

/-- Replace every maximal run of characters satisfying `p` by the single
character `r` (the `re.sub(r'X+', r, s)` pattern).  The boolean flag records
whether we are currently inside a run. -/
def collapseAux (p : Char → Bool) (r : Char) : Bool → Str → Str
  | _, [] => []
  | inRun, c :: cs =>
    if p c then
      (if inRun then collapseAux p r true cs else r :: collapseAux p r true cs)
    else c :: collapseAux p r false cs

def collapseRuns (p : Char → Bool) (r : Char) (l : Str) : Str :=
  collapseAux p r false l

def isDashChar (c : Char) : Bool := c == '-'

/-- Remove a trailing run of `'-'` (the right half of Python `strip('-')`). -/
def dropTrailingDash : Str → Str
  | [] => []
  | c :: cs =>
    match dropTrailingDash cs with
    | [] => if c == '-' then [] else [c]
    | r => c :: r

/-- Python `s.strip('-')`. -/
def trimDashes (l : Str) : Str := dropTrailingDash (l.dropWhile isDashChar)

/-- Embedding of `slugify(name)` (generate.py lines 194-201): lowercase, keep
only `[a-z0-9\s-]`, collapse whitespace runs to `-`, collapse `-` runs,
strip `-` from both ends. -/
def slugify (name : Str) : Str :=
  let s1 := name.map Char.toLower
  let s2 := s1.filter keepSlugChar
  let s3 := collapseRuns (fun c => c.isWhitespace) '-' s2
  let s4 := collapseRuns isDashChar '-' s3
  trimDashes s4

/-- The character class `[a-zA-Z0-9\s_]` kept by `_sanitize_property_name`. -/
def keepPropChar (c : Char) : Bool :=
  decide ((65 ≤ c.toNat ∧ c.toNat ≤ 90) ∨ (97 ≤ c.toNat ∧ c.toNat ≤ 122) ∨
    (48 ≤ c.toNat ∧ c.toNat ≤ 57) ∨ c.isWhitespace = true ∨ c = '_')

/-- Python `str.split()`: split on whitespace runs, no empty parts.
`cur` is the reversed current word. -/
def wordsAux : Str → Str → List Str
  | cur, [] => if cur.isEmpty then [] else [cur.reverse]
  | cur, c :: cs =>
    if c.isWhitespace then
      (if cur.isEmpty then wordsAux [] cs else cur.reverse :: wordsAux [] cs)
    else wordsAux (c :: cur) cs

def pyWords (l : Str) : List Str := wordsAux [] l

def lowerFirst : Str → Str
  | [] => []
  | c :: t => c.toLower :: t

def upperFirst : Str → Str
  | [] => []
  | c :: t => c.toUpper :: t

/-- Embedding of `_sanitize_property_name` (generate.py lines 604-619). -/
def sanitizePropertyName (name : Str) : Str :=
  if name.isEmpty then [] else
  let n1 := trimWs name
  let n2 := n1.filter keepPropChar
  match pyWords n2 with
  | [] => []
  | p :: ps => lowerFirst p ++ (ps.map upperFirst).flatten

/-- One fuelled pass of `re.sub(r'<[^>]+>', '', s)`: remove every complete
`<...>` group (with at least one character between the brackets); a `<` with
no later `>` (or an immediate `>`) is kept literally. -/
def stripHtmlGo : Nat → Str → Str
  | 0, l => l
  | _ + 1, [] => []
  | fuel + 1, c :: cs =>
    if c = '<' then
      let body := cs.takeWhile (fun d => d ≠ '>')
      if body.isEmpty then '<' :: stripHtmlGo fuel cs
      else if body.length < cs.length then stripHtmlGo fuel (cs.drop (body.length + 1))
      else '<' :: stripHtmlGo fuel cs
    else c :: stripHtmlGo fuel cs

/-- `re.sub(r'<[^>]+>', '', s)` as used on notes (fuel is ample by construction). -/
def stripHtml (l : Str) : Str := stripHtmlGo (l.length + 1) l

/-- A `t_attribute` row as consumed by the generator (`get_attributes` output,
in `Pos` order).  `classifier` models the numeric `Classifier` column
(`None`/`0`/empty are the "no classifier" cases, folded into `none` / `some 0`). -/
structure Attr where
  name : Str
  type : Str
  classifier : Option Nat
  lowerBound : Option Str
  notes : Option Str
  default : Option Str

/-- A `t_connector` Association/Aggregation row. -/
structure Assoc where
  name : Option Str
  startId : Nat
  endId : Nat
  sourceCard : Option Str
  destCard : Option Str
  sourceRole : Option Str
  destRole : Option Str

/-- One source class together with the rows the generator fetches for it
(attributes in `Pos` order, its associations, its generalization parents). -/
structure ClsData where
  objId : Nat
  name : Str
  note : Option Str
  attrs : List Attr
  assocs : List Assoc
  parentIds : List Nat

/-- The schema dict built by `_generate_schema`. -/
structure Schema where
  slug : Str
  title : Str
  version : Str
  description : Str
  required : List Str
  properties : List (Str × JVal)
  searchable : Bool
  hardValidation : Bool

def ggmVersion : Str := chars "2.5.0"

/-- Embedding of `_map_attribute` (generate.py lines 496-536).  `enums` is the
database-wide enumeration cache `self.db.enums`; `objects` maps object id to
`Object_Type`; `local_enums` is the domain-local map the source passes in and
(as in the source) never reads. -/
def mapAttribute (enums : List (Nat × List Str)) (objects : List (Nat × Str))
    (local_enums : List (Nat × List Str)) (attr : Attr) : JVal :=
  let attr_name := attr.name
  let attr_type := attr.type
  let notes := trimWs (stripHtml (attr.notes.getD []))
  let std :=
    let p0 := map_type attr_type 0
    let p1 := jSet p0 (chars "title") (JVal.str attr_name)
    let p2 := if notes.isEmpty then p1
              else jSet p1 (chars "description") (JVal.str notes)
    match attr.default with
    | some d =>
      if (trimWs d).isEmpty then p2
      else jSet p2 (chars "default") (JVal.str (trimWs d))
    | none => p2
  match attr.classifier with
  | some cid =>
    if cid = 0 then std
    else
      match alistGet enums cid with
      | some literals =>
        let e0 := JVal.obj [sProp "type" "string", (chars "title", JVal.str attr_name)]
        let e1 := if notes.isEmpty then e0
                  else jSet e0 (chars "description") (JVal.str notes)
        if literals.isEmpty then e1
        else jSet e1 (chars "enum") (JVal.arr (literals.map JVal.str))
      | none =>
        match alistGet objects cid with
        | some ot =>
          if ot = chars "DataType" then
            let d0 := jSet (map_type attr_type 0) (chars "title") (JVal.str attr_name)
            if notes.isEmpty then d0
            else jSet d0 (chars "description") (JVal.str notes)
          else std
        | none => std
  | none => std

/-- The substring test `needle in haystack` of Python. -/
def hasSub (needle : Str) : Str → Bool
  | [] => needle.isEmpty
  | c :: cs => needle.isPrefixOf (c :: cs) || hasSub needle cs

/-- The `is_multiple` computation of `_map_association` (generate.py lines
567-579): the fallback formula first, then the explicit override lists. -/
def cardMultiple (cardinality : Option Str) : Bool :=
  let im0 :=
    match cardinality with
    | none => false
    | some s =>
      !s.isEmpty && (s.contains '*' ||
        (hasSub (chars "..") s && !((chars "..1").isSuffixOf s)))
  match cardinality with
  | none => im0
  | some s =>
    if s.isEmpty then im0
    else if s ∈ [chars "0..*", chars "1..*", chars "*"] then true
    else if s ∈ [chars "0..1", chars "1", chars "1..1"] then false
    else im0

/-- Embedding of `_map_association` (generate.py lines 538-602). -/
def mapAssociation (slugMap : List (Nat × Str)) (domainMap : List (Nat × Nat))
    (domainSlugMap : List (Nat × Str)) (assoc : Assoc) (sourceObjId : Nat) :
    Option (Str × JVal) :=
  let assoc_name := assoc.name.getD []
  let target_id := if assoc.startId = sourceObjId then assoc.endId else assoc.startId
  let cardinality := if assoc.startId = sourceObjId then assoc.destCard else assoc.sourceCard
  let role0 := if assoc.startId = sourceObjId then assoc.destRole else assoc.sourceRole
  let role := match role0 with
    | some r => if r.isEmpty then assoc_name else r
    | none => assoc_name
  match alistGet slugMap target_id with
  | none => none
  | some target_slug =>
    let target_domain := alistGet domainMap target_id
    let target_register := match target_domain with
      | some d => (alistGet domainSlugMap d).getD []
      | none => []
    let pn0 := sanitizePropertyName (if role.isEmpty then target_slug else role)
    let prop_name := if pn0.isEmpty then target_slug else pn0
    let prop :=
      if cardMultiple cardinality then
        JVal.obj [sProp "type" "array", (chars "title", JVal.str prop_name),
          (chars "items",
            JVal.obj [sProp "type" "object", (chars "$ref", JVal.str target_slug)])]
      else
        JVal.obj [sProp "type" "object", (chars "title", JVal.str prop_name),
          (chars "$ref", JVal.str target_slug)]
    some (prop_name, prop)

/-- `if lower and str(lower) not in ("0", ""):` of `_generate_schema`. -/
def requiredFlag : Option Str → Bool
  | none => false
  | some s => !s.isEmpty && !(s == ['0'])

/-- One iteration of the attribute loop of `_generate_schema` (lines 447-456).
`_map_attribute` always returns a non-empty dict, so the source's `if prop:`
guard is always taken. -/
def attrStep (enums : List (Nat × List Str)) (objects : List (Nat × Str))
    (local_enums : List (Nat × List Str)) (acc : List (Str × JVal) × List Str)
    (attr : Attr) : List (Str × JVal) × List Str :=
  let prop := mapAttribute enums objects local_enums attr
  let prop_name := sanitizePropertyName attr.name
  let props := dictInsert acc.1 prop_name prop
  let required := if requiredFlag attr.lowerBound then acc.2 ++ [prop_name] else acc.2
  (props, required)

/-- The attribute loop of `_generate_schema`: properties and required list. -/
def attrPhase (enums : List (Nat × List Str)) (objects : List (Nat × Str))
    (local_enums : List (Nat × List Str)) (attrs : List Attr) :
    List (Str × JVal) × List Str :=
  attrs.foldl (attrStep enums objects local_enums) ([], [])

/-- One iteration of the association loop of `_generate_schema` (lines
459-465): an association property never overwrites an existing key. -/
def assocStep (slugMap : List (Nat × Str)) (domainMap : List (Nat × Nat))
    (domainSlugMap : List (Nat × Str)) (objId : Nat) (props : List (Str × JVal))
    (assoc : Assoc) : List (Str × JVal) :=
  match mapAssociation slugMap domainMap domainSlugMap assoc objId with
  | some (prop_name, prop_def) => dictInsertIfAbsent props prop_name prop_def
  | none => props

/-- The association loop of `_generate_schema`. -/
def assocPhase (slugMap : List (Nat × Str)) (domainMap : List (Nat × Nat))
    (domainSlugMap : List (Nat × Str)) (objId : Nat) (assocs : List Assoc)
    (props : List (Str × JVal)) : List (Str × JVal) :=
  assocs.foldl (assocStep slugMap domainMap domainSlugMap objId) props

/-- `', '.join(parts)`. -/
def joinSep (sep : Str) : List Str → Str
  | [] => []
  | [x] => x
  | x :: xs => x ++ sep ++ joinSep sep xs

/-- Embedding of `_generate_schema` (generate.py lines 432-494).  Note that the
source always returns a dict (it never returns `None`), so this is total. -/
def generateSchema (slugMap : List (Nat × Str)) (domainMap : List (Nat × Nat))
    (domainSlugMap : List (Nat × Str)) (enums : List (Nat × List Str))
    (objects : List (Nat × Str)) (local_enums : List (Nat × List Str))
    (cd : ClsData) : Schema :=
  let name := cd.name
  let slug := slugify name
  let note := trimWs (stripHtml (cd.note.getD []))
  let ap := attrPhase enums objects local_enums cd.attrs
  let properties := assocPhase slugMap domainMap domainSlugMap cd.objId cd.assocs ap.1
  let description0 := if note.isEmpty then chars "GGM entity: " ++ name else note
  let parent_names := cd.parentIds.filterMap (fun pid => alistGet slugMap pid)
  let description :=
    if parent_names.isEmpty then description0
    else description0 ++ chars " Extends: " ++ joinSep (chars ", ") parent_names ++ chars "."
  { slug := slug
    title := name
    version := ggmVersion
    description := description
    required := ap.2
    properties := properties
    searchable := true
    hardValidation := false }

/-- Decimal digit character (`48 + d` for `d < 10`). -/
def digitChar (d : Nat) : Char := Char.ofNat (48 + d)

/-- Decimal digits of a natural number, most significant first, computed with
structural fuel (`fuel > n` suffices).  Mirrors Python `f"{n}"`. -/
def natDigitsGo : Nat → Nat → Str
  | 0, _ => []
  | fuel + 1, n =>
    if n < 10 then [digitChar n]
    else natDigitsGo fuel (n / 10) ++ [digitChar (n % 10)]

def natDigits (n : Nat) : Str := natDigitsGo (n + 1) n

/-- The `while slug in schemas:` collision loop of `_generate_domain` (lines
382-387), with fuel standing for the unbounded `while`.  Each pass replaces
the candidate by `f"{original_slug}-{counter}"` and increments the counter. -/
def slugAvoid (taken : List Str) (base : Str) : Nat → Nat → Str → Str
  | 0, _, slug => slug
  | fuel + 1, counter, slug =>
    if slug ∈ taken then
      slugAvoid taken base fuel (counter + 1) (base ++ '-' :: natDigits counter)
    else slug

/-- Collision resolution for one schema slug against the already-used keys.
`taken.length + 2` passes always suffice for the loop to exit (proved below). -/
def resolveSlug (taken : List Str) (base : Str) : Str :=
  slugAvoid taken base (taken.length + 2) 2 base

/-- The schema-assembly loop of `_generate_domain` (generate.py lines
375-389): build each schema, resolve its slug against the current map,
update the document's own slug field, insert, and record the slug.
`_generate_schema` always returns a truthy dict, so `if schema:` always
holds. -/
def domainStep (slugMap : List (Nat × Str)) (domainMap : List (Nat × Nat))
    (domainSlugMap : List (Nat × Str)) (enums : List (Nat × List Str))
    (objects : List (Nat × Str)) (local_enums : List (Nat × List Str))
    (acc : List (Str × Schema) × List Str) (cd : ClsData) :
    List (Str × Schema) × List Str :=
  let schema := generateSchema slugMap domainMap domainSlugMap enums objects local_enums cd
  let slug := resolveSlug (acc.1.map Prod.fst) schema.slug
  (dictInsert acc.1 slug { schema with slug := slug }, acc.2 ++ [slug])

def generateDomainSchemas (slugMap : List (Nat × Str)) (domainMap : List (Nat × Nat))
    (domainSlugMap : List (Nat × Str)) (enums : List (Nat × List Str))
    (objects : List (Nat × Str)) (local_enums : List (Nat × List Str))
    (classes : List ClsData) : List (Str × Schema) × List Str :=
  classes.foldl (domainStep slugMap domainMap domainSlugMap enums objects local_enums)
    ([], [])

/-- Embedding of `GGMDatabase.get_descendant_packages` (generate.py lines
258-263), which recurses over `package_children`.  The fuel argument stands
for the Python call stack: a run that would recurse past the fuel yields
`none` (matching the interpreter's unbounded recursion on such inputs).
`descList children fuel l` processes a work list of roots, expanding the
first root's children with one unit of fuel less, exactly following the
source's `result = [parent_id]; for child: result.extend(recurse(child))`. -/
def descList (children : Nat → List Nat) : Nat → List Nat → Option (List Nat)
  | _, [] => some []
  | 0, _ :: _ => none
  | fuel + 1, p :: ps =>
    match descList children fuel (children p), descList children (fuel + 1) ps with
    | some r, some rs => some ((p :: r) ++ rs)
    | _, _ => none
termination_by fuel l => (fuel, l.length)

/-- `get_descendant_packages(parent_id)` with an explicit recursion budget. -/
def getDescFuel (children : Nat → List Nat) (fuel : Nat) (p : Nat) : Option (List Nat) :=
  descList children fuel [p]

/-- Reachability along the package parent-to-children relation: the
descendant closure (reflexive-transitive) that the traversal computes. -/
inductive PkgDesc (children : Nat → List Nat) : Nat → Nat → Prop where
  | refl (p : Nat) : PkgDesc children p p
  | step {p c q : Nat} : c ∈ children p → PkgDesc children c q → PkgDesc children p q

/-! ### Spec-side definitions

These definitions transcribe the specification's wording (not the code) and
are compared with the corresponding code-derived definitions above. -/

/-- The cardinality classification exactly as the specification words it:
`"0..*"`, `"1..*"`, `"*"` are multiple; `"0..1"`, `"1"`, `"1..1"` are single;
any other non-empty string containing `*`, or containing `..` but not ending
in `..1`, is multiple; anything else is single. -/
def specCardMultiple (cardinality : Option Str) : Bool :=
  match cardinality with
  | none => false
  | some s =>
    if s ∈ [chars "0..*", chars "1..*", chars "*"] then true
    else if s ∈ [chars "0..1", chars "1", chars "1..1"] then false
    else if !s.isEmpty && (s.contains '*' ||
        (hasSub (chars "..") s && !((chars "..1").isSuffixOf s))) then true
    else false

/-- The required-attribute condition as the specification words it: the lower
cardinality bound is present and not equal to `"0"` or the empty string. -/
def specRequiredFlag : Option Str → Bool
  | none => false
  | some s => if s = [] then false else if s = ['0'] then false else true

/-- The multiple (array) association property shape stated by the spec. -/
def specMultiProp (prop_name target_slug : Str) : JVal :=
  JVal.obj [sProp "type" "array", (chars "title", JVal.str prop_name),
    (chars "items",
      JVal.obj [sProp "type" "object", (chars "$ref", JVal.str target_slug)])]

/-- The single (object) association property shape stated by the spec. -/
def specSingleProp (prop_name target_slug : Str) : JVal :=
  JVal.obj [sProp "type" "object", (chars "title", JVal.str prop_name),
    (chars "$ref", JVal.str target_slug)]

/-- A slug character per the spec: lowercase ASCII letter, digit, or hyphen. -/
def GoodSlugChar (c : Char) : Prop :=
  (97 ≤ c.toNat ∧ c.toNat ≤ 122) ∨ (48 ≤ c.toNat ∧ c.toNat ≤ 57) ∨ c = '-'

/-- No two consecutive hyphens. -/
def noDoubleDash : Str → Bool
  | [] => true
  | [_] => true
  | a :: b :: t => !(a == '-' && b == '-') && noDoubleDash (b :: t)

/-! ### Association-list lemmas -/

theorem alistGet_dictInsert_self {α β : Type} [DecidableEq α]
    (m : List (α × β)) (k : α) (v : β) : alistGet (dictInsert m k v) k = some v := by
  unfold dictInsert
  split
  · rename_i hmem
    induction m with
    | nil => simp at hmem
    | cons p ps ih =>
      by_cases hp : p.1 = k
      · simp [alistGet, hp]
      · have : k ∈ ps.map Prod.fst := by
          rcases List.mem_map.1 hmem with ⟨q, hq, hqk⟩
          rcases List.mem_cons.1 hq with rfl | hq'
          · exact absurd hqk hp
          · exact List.mem_map.2 ⟨q, hq', hqk⟩
        simpa [alistGet, hp] using ih this
  · induction m with
    | nil => simp [alistGet]
    | cons p ps ih =>
      rename_i hmem
      have hp : ¬ p.1 = k := fun h => hmem (by simp [h])
      have : k ∉ ps.map Prod.fst := fun h => hmem (by simp [h])
      simpa [alistGet, hp] using ih this

theorem jGet_jSet_obj (fs : List (Str × JVal)) (k : Str) (x : JVal) :
    jGet (jSet (JVal.obj fs) k x) k = some x := by
  simp [jSet, jGet, alistGet_dictInsert_self]

/-! ### Claim C7: the type-mapper point values -/

/-- Claim C7: `map_type` respects its precedence and point mappings:
`N10.2` maps to number (and not to integer), `AN10` to a string with
maxLength 10, `varchar(50)` to a string with maxLength 50, and bare
`varchar` to a string with maxLength 255. -/
theorem c7_map_type_values :
    map_type (chars "N10.2") 0 = JVal.obj [sProp "type" "number"] ∧
    JVal.obj [sProp "type" "number"] ≠ JVal.obj [sProp "type" "integer"] ∧
    map_type (chars "AN10") 0 = JVal.obj [sProp "type" "string", nProp "maxLength" 10] ∧
    map_type (chars "varchar(50)") 0 = JVal.obj [sProp "type" "string", nProp "maxLength" 50] ∧
    map_type (chars "varchar") 0 = JVal.obj [sProp "type" "string", nProp "maxLength" 255] := by
  refine ⟨rfl, ?_, rfl, rfl, rfl⟩
  intro h
  simp [sProp, chars] at h

/-! ### Claim C10: enumeration resolution is model-global -/

/-- Claim C10: `_map_attribute` resolves enumeration classifiers through the
database-wide cache and never reads its `local_enums` argument: its result is
independent of `local_enums`, and whenever the classifier id is in the global
cache with a non-empty literal list, the emitted property carries that list
as its `enum` field — regardless of the domain-local enumeration map. -/
theorem c10_enum_resolution_global :
    (∀ (enums : List (Nat × List Str)) (objects : List (Nat × Str))
        (l1 l2 : List (Nat × List Str)) (a : Attr),
      mapAttribute enums objects l1 a = mapAttribute enums objects l2 a) ∧
    (∀ (enums : List (Nat × List Str)) (objects : List (Nat × Str))
        (local_enums : List (Nat × List Str)) (a : Attr) (cid : Nat) (lits : List Str),
      a.classifier = some cid → cid ≠ 0 → alistGet enums cid = some lits → lits ≠ [] →
      jGet (mapAttribute enums objects local_enums a) (chars "enum") =
        some (JVal.arr (lits.map JVal.str))) := by
  constructor
  · intro enums objects l1 l2 a
    rfl
  · intro enums objects local_enums a cid lits hc hc0 hget hne
    unfold mapAttribute
    rw [hc]
    simp only [if_neg hc0, hget]
    rcases lits with _ | ⟨x, xs⟩
    · exact absurd rfl hne
    · simp only [List.isEmpty_cons, if_neg (by simp : ¬ (false = true))]
      split
      · exact jGet_jSet_obj _ _ _
      · exact jGet_jSet_obj _ _ _

/-- Witness for C10 at a concrete attribute whose classifier enumeration is
only in the global cache (the local map disagrees entirely). -/
theorem c10_witness :
    jGet (mapAttribute [(42, [chars "Ja", chars "Nee"])] []
        [(7, [chars "X"])]
        ⟨chars "status", chars "AN2", some 42, some (chars "1"), none, none⟩)
      (chars "enum") =
      some (JVal.arr [JVal.str (chars "Ja"), JVal.str (chars "Nee")]) := by
  exact c10_enum_resolution_global.2 _ _ _ _ 42 [chars "Ja", chars "Nee"]
    rfl (by decide) rfl (by simp)

/-! ### Claim C3: cardinality classification and association shapes -/

theorem cardMultiple_eq_spec (card : Option Str) :
    cardMultiple card = specCardMultiple card := by
  rcases card with _ | s
  · rfl
  · rcases s with _ | ⟨c, cs⟩
    · decide
    · by_cases h1 : (c :: cs) ∈ [chars "0..*", chars "1..*", chars "*"]
      · simp [cardMultiple, specCardMultiple, h1]
      · by_cases h2 : (c :: cs) ∈ [chars "0..1", chars "1", chars "1..1"]
        · simp [cardMultiple, specCardMultiple, h1, h2]
        · cases h3 : ((c :: cs).contains '*' ||
              (hasSub (chars "..") (c :: cs) && !((chars "..1").isSuffixOf (c :: cs)))) <;>
            simp [cardMultiple, specCardMultiple, h1, h2, h3]

/-- Claim C3: the association mapper's multiplicity decision agrees with the
specification's classification for every cardinality string, and a resolved
association yields exactly the spec's array shape (multiple) or object shape
(single), with the bare target slug as `$ref`. -/
theorem c3_cardinality_mapping :
    (∀ card : Option Str, cardMultiple card = specCardMultiple card) ∧
    (∀ (slugMap : List (Nat × Str)) (domainMap : List (Nat × Nat))
        (domainSlugMap : List (Nat × Str)) (a : Assoc) (src : Nat) (ts : Str),
      alistGet slugMap (if a.startId = src then a.endId else a.startId) = some ts →
      ∃ pn, mapAssociation slugMap domainMap domainSlugMap a src =
        some (pn,
          if specCardMultiple (if a.startId = src then a.destCard else a.sourceCard)
          then specMultiProp pn ts else specSingleProp pn ts)) := by
  refine ⟨cardMultiple_eq_spec, ?_⟩
  intro slugMap domainMap domainSlugMap a src ts hget
  simp only [mapAssociation, hget, cardMultiple_eq_spec]
  exact ⟨_, rfl⟩

/-- Witness for C3: a concrete `1..*` association produces the array shape. -/
theorem c3_witness :
    alistGet [(2, chars "adres")] 2 = some (chars "adres") ∧
    ∃ pn, mapAssociation [(2, chars "adres")] [] []
        ⟨none, 1, 2, none, some (chars "1..*"), none, some (chars "adressen")⟩ 1 =
      some (pn, specMultiProp pn (chars "adres")) := by
  constructor
  · rfl
  · have h := c3_cardinality_mapping.2 [(2, chars "adres")] [] []
      ⟨none, 1, 2, none, some (chars "1..*"), none, some (chars "adressen")⟩ 1
      (chars "adres") rfl
    simpa using h

/-! ### More association-list lemmas -/

theorem alistGet_append_left {α β : Type} [DecidableEq α] (m t : List (α × β)) (k : α)
    (h : k ∈ m.map Prod.fst) : alistGet (m ++ t) k = alistGet m k := by
  induction m with
  | nil => simp at h
  | cons p ps ih =>
    by_cases hp : p.1 = k
    · simp [alistGet, hp]
    · have : k ∈ ps.map Prod.fst := by
        rcases List.mem_map.1 h with ⟨q, hq, hqk⟩
        rcases List.mem_cons.1 hq with rfl | hq'
        · exact absurd hqk hp
        · exact List.mem_map.2 ⟨q, hq', hqk⟩
      simpa [alistGet, hp] using ih this

theorem keys_dictInsert {α β : Type} [DecidableEq α] (m : List (α × β)) (k : α) (v : β) :
    (dictInsert m k v).map Prod.fst =
      if k ∈ m.map Prod.fst then m.map Prod.fst else m.map Prod.fst ++ [k] := by
  unfold dictInsert
  split
  · rw [List.map_map]
    apply List.map_congr_left
    intro p _
    by_cases hp : p.1 = k <;> simp [hp]
  · simp

theorem mem_keys_dictInsert_self {α β : Type} [DecidableEq α]
    (m : List (α × β)) (k : α) (v : β) : k ∈ (dictInsert m k v).map Prod.fst := by
  rw [keys_dictInsert]
  split
  · assumption
  · simp

theorem mem_keys_dictInsert_mono {α β : Type} [DecidableEq α]
    (m : List (α × β)) (k k' : α) (v : β) (h : k' ∈ m.map Prod.fst) :
    k' ∈ (dictInsert m k v).map Prod.fst := by
  rw [keys_dictInsert]
  split
  · exact h
  · exact List.mem_append_left _ h

theorem alistGet_dictInsertIfAbsent_preserve {α β : Type} [DecidableEq α]
    (m : List (α × β)) (k k' : α) (v : β) (h : k ∈ m.map Prod.fst) :
    alistGet (dictInsertIfAbsent m k' v) k = alistGet m k := by
  unfold dictInsertIfAbsent
  split
  · rfl
  · exact alistGet_append_left m [(k', v)] k h

theorem mem_keys_dictInsertIfAbsent_mono {α β : Type} [DecidableEq α]
    (m : List (α × β)) (k k' : α) (v : β) (h : k' ∈ m.map Prod.fst) :
    k' ∈ (dictInsertIfAbsent m k v).map Prod.fst := by
  unfold dictInsertIfAbsent
  split
  · exact h
  · rw [List.map_append]
    exact List.mem_append_left _ h

/-! ### Lemmas on the attribute and association loops -/

theorem assocPhase_preserves_lookup (slugMap : List (Nat × Str))
    (domainMap : List (Nat × Nat)) (domainSlugMap : List (Nat × Str)) (objId : Nat) :
    ∀ (assocs : List Assoc) (props : List (Str × JVal)) (k : Str),
      k ∈ props.map Prod.fst →
      alistGet (assocPhase slugMap domainMap domainSlugMap objId assocs props) k =
        alistGet props k := by
  intro assocs
  induction assocs with
  | nil => intro props k _; rfl
  | cons a as ih =>
    intro props k hk
    show alistGet (assocPhase slugMap domainMap domainSlugMap objId as
      (assocStep slugMap domainMap domainSlugMap objId props a)) k = alistGet props k
    unfold assocStep
    split
    · rename_i pn pd _
      rw [ih _ k (mem_keys_dictInsertIfAbsent_mono _ _ _ _ hk)]
      exact alistGet_dictInsertIfAbsent_preserve _ _ _ _ hk
    · exact ih _ k hk

theorem assocPhase_keys_mono (slugMap : List (Nat × Str))
    (domainMap : List (Nat × Nat)) (domainSlugMap : List (Nat × Str)) (objId : Nat) :
    ∀ (assocs : List Assoc) (props : List (Str × JVal)) (k : Str),
      k ∈ props.map Prod.fst →
      k ∈ (assocPhase slugMap domainMap domainSlugMap objId assocs props).map Prod.fst := by
  intro assocs
  induction assocs with
  | nil => intro props k hk; exact hk
  | cons a as ih =>
    intro props k hk
    show k ∈ (assocPhase slugMap domainMap domainSlugMap objId as
      (assocStep slugMap domainMap domainSlugMap objId props a)).map Prod.fst
    unfold assocStep
    split
    · exact ih _ k (mem_keys_dictInsertIfAbsent_mono _ _ _ _ hk)
    · exact ih _ k hk

theorem attrPhase_fold_required (enums : List (Nat × List Str))
    (objects : List (Nat × Str)) (local_enums : List (Nat × List Str)) :
    ∀ (attrs : List Attr) (acc : List (Str × JVal) × List Str),
      (attrs.foldl (attrStep enums objects local_enums) acc).2 =
        acc.2 ++ (attrs.filter (fun a => requiredFlag a.lowerBound)).map
          (fun a => sanitizePropertyName a.name) := by
  intro attrs
  induction attrs with
  | nil => intro acc; simp
  | cons a as ih =>
    intro acc
    show (as.foldl (attrStep enums objects local_enums)
      (attrStep enums objects local_enums acc a)).2 = _
    rw [ih]
    by_cases hf : requiredFlag a.lowerBound
    · simp [attrStep, hf, List.filter_cons]
    · simp [attrStep, hf, List.filter_cons]

theorem attrPhase_fold_keys_mono (enums : List (Nat × List Str))
    (objects : List (Nat × Str)) (local_enums : List (Nat × List Str)) :
    ∀ (attrs : List Attr) (acc : List (Str × JVal) × List Str) (k : Str),
      k ∈ acc.1.map Prod.fst →
      k ∈ ((attrs.foldl (attrStep enums objects local_enums) acc).1).map Prod.fst := by
  intro attrs
  induction attrs with
  | nil => intro acc k hk; exact hk
  | cons a as ih =>
    intro acc k hk
    exact ih _ k (mem_keys_dictInsert_mono _ _ _ _ hk)

theorem attrPhase_fold_key_mem (enums : List (Nat × List Str))
    (objects : List (Nat × Str)) (local_enums : List (Nat × List Str)) :
    ∀ (attrs : List Attr) (acc : List (Str × JVal) × List Str) (a : Attr),
      a ∈ attrs →
      sanitizePropertyName a.name ∈
        ((attrs.foldl (attrStep enums objects local_enums) acc).1).map Prod.fst := by
  intro attrs
  induction attrs with
  | nil => intro acc a ha; simp at ha
  | cons b bs ih =>
    intro acc a ha
    rcases List.mem_cons.1 ha with rfl | ha'
    · exact attrPhase_fold_keys_mono enums objects local_enums bs _ _
        (mem_keys_dictInsert_self _ _ _)
    · exact ih _ a ha'

/-! ### Claim C6: association properties never overwrite attribute properties -/

/-- Claim C6: in every generated schema, a key that is already present after
the attribute phase keeps its attribute-derived value: the association loop
(which runs afterwards) skips colliding keys and leaves the entry unchanged. -/
theorem c6_attr_props_not_overwritten
    (slugMap : List (Nat × Str)) (domainMap : List (Nat × Nat))
    (domainSlugMap : List (Nat × Str)) (enums : List (Nat × List Str))
    (objects : List (Nat × Str)) (local_enums : List (Nat × List Str))
    (cd : ClsData) (k : Str)
    (hk : k ∈ (attrPhase enums objects local_enums cd.attrs).1.map Prod.fst) :
    alistGet (generateSchema slugMap domainMap domainSlugMap enums objects
        local_enums cd).properties k =
      alistGet (attrPhase enums objects local_enums cd.attrs).1 k := by
  show alistGet (assocPhase slugMap domainMap domainSlugMap cd.objId cd.assocs
    (attrPhase enums objects local_enums cd.attrs).1) k = _
  exact assocPhase_preserves_lookup _ _ _ _ _ _ _ hk

/-- Witness for C6: an association whose role collides with the attribute
property `adres` is skipped; the lookup still returns the attribute value. -/
theorem c6_witness :
    (chars "adres" ∈
      (attrPhase [] [] []
        [⟨chars "adres", chars "AN5", none, some (chars "1"), none, none⟩]).1.map
          Prod.fst) ∧
    alistGet (generateSchema [(2, chars "doel")] [] [] [] [] []
        ⟨1, chars "Persoon", none,
          [⟨chars "adres", chars "AN5", none, some (chars "1"), none, none⟩],
          [⟨none, 1, 2, none, some (chars "0..1"), none, some (chars "adres")⟩],
          []⟩).properties (chars "adres") =
      alistGet (attrPhase [] [] []
        [⟨chars "adres", chars "AN5", none, some (chars "1"), none, none⟩]).1
        (chars "adres") := by
  refine ⟨by decide, ?_⟩
  exact c6_attr_props_not_overwritten [(2, chars "doel")] [] [] [] [] []
    ⟨1, chars "Persoon", none,
      [⟨chars "adres", chars "AN5", none, some (chars "1"), none, none⟩],
      [⟨none, 1, 2, none, some (chars "0..1"), none, some (chars "adres")⟩], []⟩
    (chars "adres") (by decide)

/-! ### Claim C9: required list semantics and required being a subset of keys -/

theorem requiredFlag_eq_spec (lb : Option Str) : requiredFlag lb = specRequiredFlag lb := by
  rcases lb with _ | s
  · rfl
  · rcases s with _ | ⟨c, cs⟩
    · rfl
    · by_cases h : (c :: cs) = ['0']
      · simp [requiredFlag, specRequiredFlag, h]
      · simp [requiredFlag, specRequiredFlag, h]
        exact not_and_or.mp (fun hc => h (by rw [hc.1, hc.2]))

/-- Claim C9: in every generated schema, an attribute contributes its name to
the required list exactly when its lower bound is present and differs from
`"0"` and the empty string (in attribute order), and every required name is a
key of the properties map. -/
theorem c9_required_iff_and_subset
    (slugMap : List (Nat × Str)) (domainMap : List (Nat × Nat))
    (domainSlugMap : List (Nat × Str)) (enums : List (Nat × List Str))
    (objects : List (Nat × Str)) (local_enums : List (Nat × List Str))
    (cd : ClsData) :
    (generateSchema slugMap domainMap domainSlugMap enums objects local_enums
        cd).required =
      (cd.attrs.filter (fun a => specRequiredFlag a.lowerBound)).map
        (fun a => sanitizePropertyName a.name) ∧
    ∀ r ∈ (generateSchema slugMap domainMap domainSlugMap enums objects
        local_enums cd).required,
      r ∈ (generateSchema slugMap domainMap domainSlugMap enums objects
        local_enums cd).properties.map Prod.fst := by
  have hreq : (generateSchema slugMap domainMap domainSlugMap enums objects
      local_enums cd).required =
      (cd.attrs.filter (fun a => requiredFlag a.lowerBound)).map
        (fun a => sanitizePropertyName a.name) := by
    show (attrPhase enums objects local_enums cd.attrs).2 = _
    unfold attrPhase
    rw [attrPhase_fold_required]
    simp
  constructor
  · rw [hreq]
    congr 1
    exact List.filter_congr (fun a _ => requiredFlag_eq_spec a.lowerBound)
  · intro r hr
    rw [hreq] at hr
    rcases List.mem_map.1 hr with ⟨a, haf, rfl⟩
    have ha : a ∈ cd.attrs := (List.mem_filter.1 haf).1
    show sanitizePropertyName a.name ∈
      (assocPhase slugMap domainMap domainSlugMap cd.objId cd.assocs
        (attrPhase enums objects local_enums cd.attrs).1).map Prod.fst
    exact assocPhase_keys_mono _ _ _ _ _ _ _
      (attrPhase_fold_key_mem enums objects local_enums cd.attrs _ a ha)

/-- Witness for C9: a concrete class where the lower bound `"1"` puts
`leeftijd` into required and the bound `"0"` keeps `gewicht` out; the
required name is a property key. -/
theorem c9_witness :
    ((chars "leeftijd") ∈
      (generateSchema [] [] [] [] [] []
        ⟨1, chars "Persoon", none,
          [⟨chars "leeftijd", chars "N3", none, some (chars "1"), none, none⟩,
           ⟨chars "gewicht", chars "N3", none, some (chars "0"), none, none⟩],
          [], []⟩).required) ∧
    (chars "leeftijd") ∈
      (generateSchema [] [] [] [] [] []
        ⟨1, chars "Persoon", none,
          [⟨chars "leeftijd", chars "N3", none, some (chars "1"), none, none⟩,
           ⟨chars "gewicht", chars "N3", none, some (chars "0"), none, none⟩],
          [], []⟩).properties.map Prod.fst := by
  refine ⟨by decide, ?_⟩
  exact (c9_required_iff_and_subset [] [] [] [] [] []
    ⟨1, chars "Persoon", none,
      [⟨chars "leeftijd", chars "N3", none, some (chars "1"), none, none⟩,
       ⟨chars "gewicht", chars "N3", none, some (chars "0"), none, none⟩],
      [], []⟩).2 (chars "leeftijd") (by decide)

/-! ### Claim C5: unresolved association targets are dropped silently -/

/-- Claim C5: when the other-end object id of an association is absent from
the global slug map, `_map_association` returns nothing, and the generated
schema is identical to the one generated without that association — no
property is emitted and no error is raised. -/
theorem c5_unresolved_target_dropped
    (slugMap : List (Nat × Str)) (domainMap : List (Nat × Nat))
    (domainSlugMap : List (Nat × Str)) (a : Assoc) (src : Nat)
    (hmiss : alistGet slugMap (if a.startId = src then a.endId else a.startId) = none) :
    mapAssociation slugMap domainMap domainSlugMap a src = none ∧
    ∀ (enums : List (Nat × List Str)) (objects : List (Nat × Str))
      (local_enums : List (Nat × List Str)) (nm : Str) (nt : Option Str)
      (attrs : List Attr) (pre post : List Assoc) (parents : List Nat),
      generateSchema slugMap domainMap domainSlugMap enums objects local_enums
          ⟨src, nm, nt, attrs, pre ++ a :: post, parents⟩ =
        generateSchema slugMap domainMap domainSlugMap enums objects local_enums
          ⟨src, nm, nt, attrs, pre ++ post, parents⟩ := by
  have hnone : mapAssociation slugMap domainMap domainSlugMap a src = none := by
    simp only [mapAssociation, hmiss]
  refine ⟨hnone, ?_⟩
  intro enums objects local_enums nm nt attrs pre post parents
  have hprops : ∀ props,
      assocPhase slugMap domainMap domainSlugMap src (pre ++ a :: post) props =
        assocPhase slugMap domainMap domainSlugMap src (pre ++ post) props := by
    intro props
    unfold assocPhase
    rw [List.foldl_append, List.foldl_append, List.foldl_cons]
    have : assocStep slugMap domainMap domainSlugMap src
        (List.foldl (assocStep slugMap domainMap domainSlugMap src) props pre) a =
        List.foldl (assocStep slugMap domainMap domainSlugMap src) props pre := by
      unfold assocStep
      rw [hnone]
    rw [this]
  simp only [generateSchema, hprops]

/-- Witness for C5: a concrete association whose target id 2 is not in the
slug map produces no property and leaves the schema unchanged. -/
theorem c5_witness :
    mapAssociation [] [] [] ⟨none, 1, 2, none, some (chars "1..*"), none,
        some (chars "adressen")⟩ 1 = none ∧
    generateSchema [] [] [] [] [] []
        ⟨1, chars "Persoon", none, [],
          [⟨none, 1, 2, none, some (chars "1..*"), none, some (chars "adressen")⟩], []⟩ =
      generateSchema [] [] [] [] [] []
        ⟨1, chars "Persoon", none, [], [], []⟩ := by
  have h := c5_unresolved_target_dropped [] [] []
    ⟨none, 1, 2, none, some (chars "1..*"), none, some (chars "adressen")⟩ 1 rfl
  exact ⟨h.1, h.2 [] [] [] (chars "Persoon") none [] [] [] []⟩

/-! ### Decimal digits: correctness and injectivity -/

theorem digitsVal_append_single (l : Str) (c : Char) :
    digitsVal (l ++ [c]) = 10 * digitsVal l + (c.toNat - 48) := by
  unfold digitsVal
  rw [List.foldl_append]
  rfl

theorem toNat_digitChar (d : Nat) (hd : d < 10) : (digitChar d).toNat - 48 = d := by
  interval_cases d <;> rfl

theorem digitsVal_natDigitsGo (fuel : Nat) :
    ∀ n, n < fuel → digitsVal (natDigitsGo fuel n) = n := by
  induction fuel with
  | zero => intro n hn; omega
  | succ f ih =>
    intro n hn
    by_cases h10 : n < 10
    · simp only [natDigitsGo, if_pos h10]
      have : digitsVal [digitChar n] = 10 * digitsVal [] + ((digitChar n).toNat - 48) :=
        digitsVal_append_single [] (digitChar n)
      rw [this, toNat_digitChar n h10]
      have h0 : digitsVal [] = 0 := rfl
      rw [h0]
      omega
    · simp only [natDigitsGo, if_neg h10]
      rw [digitsVal_append_single, ih (n / 10) (by omega), toNat_digitChar _ (by omega)]
      omega

theorem digitsVal_natDigits (n : Nat) : digitsVal (natDigits n) = n :=
  digitsVal_natDigitsGo (n + 1) n (Nat.lt_succ_self n)

theorem natDigits_injective : Function.Injective natDigits := by
  intro a b h
  have := congrArg digitsVal h
  rwa [digitsVal_natDigits, digitsVal_natDigits] at this

theorem cand_injective (base : Str) :
    Function.Injective (fun c => base ++ '-' :: natDigits c) := by
  intro a b h
  simp only [List.append_cancel_left_eq, List.cons.injEq, true_and] at h
  exact natDigits_injective h

/-! ### The collision loop always exits, on the first available suffix -/

theorem exists_free_cand (taken : List Str) (base : Str) (c0 : Nat) :
    ∃ j, j ≤ taken.length ∧ (base ++ '-' :: natDigits (c0 + j)) ∉ taken := by
  by_contra hall
  push_neg at hall
  have hsub : ((List.range (taken.length + 1)).map
      (fun j => base ++ '-' :: natDigits (c0 + j))) ⊆ taken := by
    intro x hx
    rcases List.mem_map.1 hx with ⟨j, hj, rfl⟩
    exact hall j (Nat.lt_succ_iff.mp (List.mem_range.1 hj))
  have hnd : ((List.range (taken.length + 1)).map
      (fun j => base ++ '-' :: natDigits (c0 + j))).Nodup := by
    refine List.Nodup.map ?_ (List.nodup_range _)
    intro a b h
    have := cand_injective base h
    omega
  have hle := (List.subperm_of_subset hnd hsub).length_le
  simp at hle

theorem slugAvoid_finds (taken : List Str) (base : Str) :
    ∀ (m fuel counter : Nat),
      (base ++ '-' :: natDigits (counter + m)) ∉ taken →
      (∀ j < m, (base ++ '-' :: natDigits (counter + j)) ∈ taken) →
      m < fuel →
      slugAvoid taken base fuel (counter + 1) (base ++ '-' :: natDigits counter) =
        base ++ '-' :: natDigits (counter + m) := by
  intro m
  induction m with
  | zero =>
    intro fuel counter hm _ hf
    rcases fuel with _ | f
    · omega
    · have hnot : (base ++ '-' :: natDigits counter) ∉ taken := by simpa using hm
      simp only [slugAvoid, if_neg hnot, Nat.add_zero]
  | succ m' ih =>
    intro fuel counter hm hmin hf
    rcases fuel with _ | f
    · omega
    · have hin : (base ++ '-' :: natDigits counter) ∈ taken := by
        simpa using hmin 0 (Nat.succ_pos m')
      simp only [slugAvoid, if_pos hin]
      have e1 : counter + 1 + m' = counter + (m' + 1) := by omega
      have h1 : (base ++ '-' :: natDigits (counter + 1 + m')) ∉ taken := by
        rw [e1]; exact hm
      have h2 : ∀ j < m', (base ++ '-' :: natDigits (counter + 1 + j)) ∈ taken := by
        intro j hj
        have : counter + 1 + j = counter + (j + 1) := by omega
        rw [this]
        exact hmin (j + 1) (by omega)
      have := ih f (counter + 1) h1 h2 (by omega)
      rw [this, e1]

/-- Full characterization of `resolveSlug`: the loop returns the base slug if
it is free, and otherwise the base with the first available integer suffix
at least 2 appended as `-<digits>`. -/
theorem resolveSlug_spec (taken : List Str) (base : Str) :
    (base ∉ taken → resolveSlug taken base = base) ∧
    (base ∈ taken → ∃ c, 2 ≤ c ∧
      resolveSlug taken base = base ++ '-' :: natDigits c ∧
      (base ++ '-' :: natDigits c) ∉ taken ∧
      ∀ j, 2 ≤ j → j < c → (base ++ '-' :: natDigits j) ∈ taken) := by
  constructor
  · intro h
    unfold resolveSlug
    simp only [slugAvoid, if_neg h]
  · intro h
    obtain ⟨jw, hjw, hjfree⟩ := exists_free_cand taken base 2
    have hex : ∃ m, (base ++ '-' :: natDigits (2 + m)) ∉ taken := ⟨jw, hjfree⟩
    have hm := Nat.find_spec hex
    have hmin : ∀ i < Nat.find hex, (base ++ '-' :: natDigits (2 + i)) ∈ taken := by
      intro i hi
      by_contra hnot
      exact Nat.find_min hex hi hnot
    have hmw : Nat.find hex ≤ jw := Nat.find_min' hex hjfree
    refine ⟨2 + Nat.find hex, by omega, ?_, hm, ?_⟩
    · unfold resolveSlug
      have : slugAvoid taken base (taken.length + 2) 2 base =
          slugAvoid taken base (taken.length + 1) (2 + 1) (base ++ '-' :: natDigits 2) := by
        simp only [slugAvoid, if_pos h]
      rw [this]
      exact slugAvoid_finds taken base (Nat.find hex) (taken.length + 1) 2 hm hmin (by omega)
    · intro j h2j hjc
      have : j = 2 + (j - 2) := by omega
      rw [this]
      exact hmin (j - 2) (by omega)

theorem resolveSlug_fresh (taken : List Str) (base : Str) :
    resolveSlug taken base ∉ taken := by
  by_cases h : base ∈ taken
  · obtain ⟨c, _, heq, hfree, _⟩ := (resolveSlug_spec taken base).2 h
    rw [heq]; exact hfree
  · rw [(resolveSlug_spec taken base).1 h]; exact h

theorem alistGet_mem {α β : Type} [DecidableEq α] :
    ∀ (m : List (α × β)) (k : α) (v : β), alistGet m k = some v → (k, v) ∈ m := by
  intro m
  induction m with
  | nil => intro k v h; simp [alistGet] at h
  | cons p ps ih =>
    intro k v h
    by_cases hp : p.1 = k
    · simp only [alistGet, if_pos hp] at h
      have hv : v = p.2 := by injection h with h'; exact h'.symm
      have hkv : (k, v) = p := by rw [← hp, hv]
      rw [hkv]
      exact List.mem_cons_self p ps
    · simp only [alistGet, if_neg hp] at h
      exact List.mem_cons_of_mem p (ih k v h)

theorem mem_dictInsert_cases {α β : Type} [DecidableEq α]
    (m : List (α × β)) (k : α) (v : β) (q : α × β) (hq : q ∈ dictInsert m k v) :
    q ∈ m ∨ q = (k, v) := by
  unfold dictInsert at hq
  split at hq
  · rcases List.mem_map.1 hq with ⟨p, hp, hpe⟩
    by_cases hc : p.1 = k
    · right; rw [← hpe, if_pos hc]
    · left; rw [← hpe, if_neg hc]; exact hp
  · rcases List.mem_append.1 hq with h | h
    · left; exact h
    · right; simpa using h

theorem generateDomainSchemas_slug_eq_key (slugMap : List (Nat × Str))
    (domainMap : List (Nat × Nat)) (domainSlugMap : List (Nat × Str))
    (enums : List (Nat × List Str)) (objects : List (Nat × Str))
    (local_enums : List (Nat × List Str)) :
    ∀ (classes : List ClsData) (acc : List (Str × Schema) × List Str),
      (∀ p ∈ acc.1, (p.2).slug = p.1) →
      ∀ p ∈ (classes.foldl
          (domainStep slugMap domainMap domainSlugMap enums objects local_enums) acc).1,
        (p.2).slug = p.1 := by
  intro classes
  induction classes with
  | nil => intro acc hinv p hp; exact hinv p hp
  | cons cd cds ih =>
    intro acc hinv p hp
    rw [List.foldl_cons] at hp
    refine ih _ ?_ p hp
    intro q hq
    simp only [domainStep] at hq
    rcases mem_dictInsert_cases _ _ _ q hq with h | h
    · exact hinv q h
    · rw [h]

/-! ### Claim C4: slug collision resolution -/

/-- Claim C4: within one domain, a colliding base slug is rewritten to the
base with the first available integer suffix at least 2 (`base-2`, `base-3`,
...) before insertion, and every stored schema document's own slug field
equals its key in the schemas map. -/
theorem c4_slug_collision_resolution :
    (∀ (taken : List Str) (base : Str),
      (base ∉ taken → resolveSlug taken base = base) ∧
      (base ∈ taken → ∃ c, 2 ≤ c ∧
        resolveSlug taken base = base ++ '-' :: natDigits c ∧
        (base ++ '-' :: natDigits c) ∉ taken ∧
        ∀ j, 2 ≤ j → j < c → (base ++ '-' :: natDigits j) ∈ taken)) ∧
    (∀ (slugMap : List (Nat × Str)) (domainMap : List (Nat × Nat))
        (domainSlugMap : List (Nat × Str)) (enums : List (Nat × List Str))
        (objects : List (Nat × Str)) (local_enums : List (Nat × List Str))
        (classes : List ClsData) (k : Str) (doc : Schema),
      alistGet (generateDomainSchemas slugMap domainMap domainSlugMap enums
        objects local_enums classes).1 k = some doc → doc.slug = k) := by
  refine ⟨resolveSlug_spec, ?_⟩
  intro slugMap domainMap domainSlugMap enums objects local_enums classes k doc hget
  have hmem := alistGet_mem _ k doc hget
  exact generateDomainSchemas_slug_eq_key slugMap domainMap domainSlugMap enums
    objects local_enums classes ([], []) (by intro p hp; simp at hp) (k, doc) hmem

/-- Witness for C4: two entities whose names both slugify to `adres` are
stored under the keys `adres` and `adres-2`, and the second document's own
slug field equals its key. -/
theorem c4_witness :
    (generateDomainSchemas [] [] [] [] [] []
      [⟨1, chars "Adres", none, [], [], []⟩,
       ⟨2, chars "ADRES!!", none, [], [], []⟩]).2 =
      [chars "adres", chars "adres-2"] ∧
    (alistGet (generateDomainSchemas [] [] [] [] [] []
      [⟨1, chars "Adres", none, [], [], []⟩,
       ⟨2, chars "ADRES!!", none, [], [], []⟩]).1 (chars "adres-2")).map
        Schema.slug = some (chars "adres-2") := by
  refine ⟨by decide, ?_⟩
  rcases h : alistGet (generateDomainSchemas [] [] [] [] [] []
      [⟨1, chars "Adres", none, [], [], []⟩,
       ⟨2, chars "ADRES!!", none, [], [], []⟩]).1 (chars "adres-2") with _ | doc
  · have hs : (alistGet (generateDomainSchemas [] [] [] [] [] []
        [⟨1, chars "Adres", none, [], [], []⟩,
         ⟨2, chars "ADRES!!", none, [], [], []⟩]).1 (chars "adres-2")).isSome = true := by
      decide
    rw [h] at hs
    simp at hs
  · have := c4_slug_collision_resolution.2 [] [] [] [] [] []
      [⟨1, chars "Adres", none, [], [], []⟩,
       ⟨2, chars "ADRES!!", none, [], [], []⟩] (chars "adres-2") doc h
    simp [this]

/-! ### Claim C1: entities with an empty derived name are not excluded -/

theorem dictInsert_length_of_not_mem {α β : Type} [DecidableEq α]
    (m : List (α × β)) (k : α) (v : β) (h : k ∉ m.map Prod.fst) :
    (dictInsert m k v).length = m.length + 1 := by
  unfold dictInsert
  rw [if_neg h]
  simp

theorem domainStep_lengths (slugMap : List (Nat × Str))
    (domainMap : List (Nat × Nat)) (domainSlugMap : List (Nat × Str))
    (enums : List (Nat × List Str)) (objects : List (Nat × Str))
    (local_enums : List (Nat × List Str)) (acc : List (Str × Schema) × List Str)
    (cd : ClsData) :
    (domainStep slugMap domainMap domainSlugMap enums objects local_enums acc cd).1.length =
      acc.1.length + 1 ∧
    (domainStep slugMap domainMap domainSlugMap enums objects local_enums acc cd).2.length =
      acc.2.length + 1 := by
  constructor
  · show (dictInsert acc.1 _ _).length = _
    rw [dictInsert_length_of_not_mem]
    exact resolveSlug_fresh (acc.1.map Prod.fst) _
  · show (acc.2 ++ [_]).length = _
    simp

theorem generateDomainSchemas_fold_lengths (slugMap : List (Nat × Str))
    (domainMap : List (Nat × Nat)) (domainSlugMap : List (Nat × Str))
    (enums : List (Nat × List Str)) (objects : List (Nat × Str))
    (local_enums : List (Nat × List Str)) :
    ∀ (classes : List ClsData) (acc : List (Str × Schema) × List Str),
      ((classes.foldl
          (domainStep slugMap domainMap domainSlugMap enums objects local_enums)
          acc).1.length = acc.1.length + classes.length ∧
       (classes.foldl
          (domainStep slugMap domainMap domainSlugMap enums objects local_enums)
          acc).2.length = acc.2.length + classes.length) := by
  intro classes
  induction classes with
  | nil => intro acc; simp
  | cons cd cds ih =>
    intro acc
    rw [List.foldl_cons]
    obtain ⟨h1, h2⟩ :=
      ih (domainStep slugMap domainMap domainSlugMap enums objects local_enums acc cd)
    obtain ⟨s1, s2⟩ := domainStep_lengths slugMap domainMap domainSlugMap enums
      objects local_enums acc cd
    constructor
    · rw [h1, s1]
      simp
      omega
    · rw [h2, s2]
      simp
      omega

/-- Claim C1 (amended): `_generate_schema` never returns nothing, and the
`if schema:` guard of `_generate_domain` is always taken, so NO entity is
excluded: every source class — including one whose derived name is empty —
yields exactly one inserted SchemaDocument and exactly one entry in the
register's ordered slug list. -/
theorem c1_no_entity_excluded (slugMap : List (Nat × Str))
    (domainMap : List (Nat × Nat)) (domainSlugMap : List (Nat × Str))
    (enums : List (Nat × List Str)) (objects : List (Nat × Str))
    (local_enums : List (Nat × List Str)) (classes : List ClsData) :
    (generateDomainSchemas slugMap domainMap domainSlugMap enums objects
        local_enums classes).1.length = classes.length ∧
    (generateDomainSchemas slugMap domainMap domainSlugMap enums objects
        local_enums classes).2.length = classes.length := by
  have := generateDomainSchemas_fold_lengths slugMap domainMap domainSlugMap
    enums objects local_enums classes ([], [])
  simpa [generateDomainSchemas] using this

/-- Counterexample to claim C1 as stated: an entity named `"!!!"` has the
empty derived name (its slug is `""`), yet the generator still emits a
SchemaDocument for it — the empty slug appears both in the register's slug
list and among the keys of the domain's schemas map, contradicting the
claimed silent exclusion. -/
theorem c1_counterexample :
    ([] : Str) ∈ (generateDomainSchemas [] [] [] [] [] []
      [⟨1, chars "!!!", none, [], [], []⟩]).2 ∧
    ([] : Str) ∈ ((generateDomainSchemas [] [] [] [] [] []
      [⟨1, chars "!!!", none, [], [], []⟩]).1.map Prod.fst) := by
  exact ⟨by decide, by decide⟩

/-! ### Claim C2: the package-subtree expansion and recursion -/

theorem descList_cycle_none :
    ∀ fuel, descList (fun n => if n = 1 then [1] else []) fuel [1] = none := by
  intro fuel
  induction fuel with
  | zero => simp [descList]
  | succ f ih => simp [descList, ih]

/-- Counterexample to claim C2 as stated: the source's
`get_descendant_packages` is recursive, and on a malformed hierarchy
containing a package that is its own child (a cycle) the recursion never
returns — no recursion budget suffices — so the expansion does not terminate
for every supplied parent-child relation. -/
theorem c2_counterexample :
    ¬ (∀ (children : Nat → List Nat) (root : Nat),
        ∃ fuel l, getDescFuel children fuel root = some l) := by
  intro h
  obtain ⟨fuel, l, hl⟩ := h (fun n => if n = 1 then [1] else []) 1
  rw [getDescFuel, descList_cycle_none fuel] at hl
  exact Option.noConfusion hl

theorem pkgDesc_iff (children : Nat → List Nat) (p q : Nat) :
    PkgDesc children p q ↔ q = p ∨ ∃ c ∈ children p, PkgDesc children c q := by
  constructor
  · intro h
    cases h with
    | refl _ => exact Or.inl rfl
    | step hc hd => exact Or.inr ⟨_, hc, hd⟩
  · intro h
    rcases h with rfl | ⟨c, hc, hd⟩
    · exact PkgDesc.refl q
    · exact PkgDesc.step hc hd

theorem descList_sound (children : Nat → List Nat) :
    ∀ (fuel : Nat) (l r : List Nat),
      descList children fuel l = some r →
      ∀ q, q ∈ r ↔ ∃ p ∈ l, PkgDesc children p q := by
  intro fuel
  induction fuel with
  | zero =>
    intro l r h q
    rcases l with _ | ⟨p, ps⟩
    · simp only [descList, Option.some.injEq] at h
      subst h
      simp
    · simp [descList] at h
  | succ f ih =>
    intro l
    induction l with
    | nil =>
      intro r h q
      simp only [descList, Option.some.injEq] at h
      subst h
      simp
    | cons p ps ihl =>
      intro r h q
      rcases h1 : descList children f (children p) with _ | r1
      · rw [descList, h1] at h
        simp at h
      · rcases h2 : descList children (f + 1) ps with _ | rs
        · rw [descList, h1, h2] at h
          simp at h
        · rw [descList, h1, h2] at h
          simp only [Option.some.injEq] at h
          subst h
          have hr1 := ih (children p) r1 h1 q
          have hrs := ihl rs h2 q
          constructor
          · intro hq
            rcases List.mem_append.1 hq with hq1 | hq2
            · rcases List.mem_cons.1 hq1 with rfl | hq1'
              · exact ⟨_, List.mem_cons_self _ _, PkgDesc.refl _⟩
              · rcases hr1.1 hq1' with ⟨c, hc, hd⟩
                exact ⟨p, List.mem_cons_self p ps, PkgDesc.step hc hd⟩
            · rcases hrs.1 hq2 with ⟨p', hp', hd⟩
              exact ⟨p', List.mem_cons_of_mem p hp', hd⟩
          · rintro ⟨p', hp', hd⟩
            rcases List.mem_cons.1 hp' with rfl | h'
            · rcases (pkgDesc_iff children _ q).1 hd with rfl | ⟨c, hc, hd'⟩
              · exact List.mem_append_left _ (List.mem_cons_self _ _)
              · exact List.mem_append_left _
                  (List.mem_cons_of_mem _ (hr1.2 ⟨c, hc, hd'⟩))
            · exact List.mem_append_right _ (hrs.2 ⟨p', h', hd⟩)

theorem descList_total (children : Nat → List Nat) (rank : Nat → Nat)
    (hrank : ∀ p c, c ∈ children p → rank c < rank p) :
    ∀ (fuel : Nat) (l : List Nat), (∀ p ∈ l, rank p < fuel) →
      ∃ r, descList children fuel l = some r := by
  intro fuel
  induction fuel with
  | zero =>
    intro l hl
    rcases l with _ | ⟨p, ps⟩
    · exact ⟨[], by simp [descList]⟩
    · exact absurd (hl p (List.mem_cons_self p ps)) (by omega)
  | succ f ih =>
    intro l
    induction l with
    | nil => intro _; exact ⟨[], by simp [descList]⟩
    | cons p ps ihl =>
      intro hl
      obtain ⟨r1, h1⟩ := ih (children p) (fun c hc => by
        have hc1 := hrank p c hc
        have hc2 := hl p (List.mem_cons_self p ps)
        omega)
      obtain ⟨rs, h2⟩ := ihl (fun p' hp' => hl p' (List.mem_cons_of_mem p hp'))
      exact ⟨(p :: r1) ++ rs, by rw [descList, h1, h2]⟩

/-- Claim C2 (amended): the package-subtree expansion is implemented by
recursive calls, not an iterative work-list, so its termination is only
guaranteed on well-founded hierarchies: whenever the parent-to-children
relation admits a ranking function (in particular for every acyclic package
forest), a recursion budget of `rank root + 1` suffices and the traversal
returns exactly the descendant closure of the root; on cyclic (malformed)
hierarchies it does not terminate (see the counterexample). -/
theorem c2_descendants_terminate_on_ranked_forests
    (children : Nat → List Nat) (rank : Nat → Nat)
    (hrank : ∀ p c, c ∈ children p → rank c < rank p) (root : Nat) :
    ∃ l, getDescFuel children (rank root + 1) root = some l ∧
      ∀ q, q ∈ l ↔ PkgDesc children root q := by
  obtain ⟨l, hl⟩ := descList_total children rank hrank (rank root + 1) [root]
    (by
      intro p hp
      rcases List.mem_cons.1 hp with rfl | h
      · omega
      · simp at h)
  refine ⟨l, hl, ?_⟩
  intro q
  have := descList_sound children (rank root + 1) [root] l hl q
  simpa using this

/-- Witness for C2 at a concrete two-package forest with an explicit ranking
function. -/
theorem c2_witness :
    (∀ p c, c ∈ (fun n => if n = 1 then [2] else ([] : List Nat)) p →
      (fun n : Nat => if n = 1 then (1 : Nat) else 0) c <
        (fun n : Nat => if n = 1 then (1 : Nat) else 0) p) ∧
    ∃ l, getDescFuel (fun n => if n = 1 then [2] else [])
        ((fun n : Nat => if n = 1 then (1 : Nat) else 0) 1 + 1) 1 = some l ∧
      ∀ q, q ∈ l ↔ PkgDesc (fun n => if n = 1 then [2] else []) 1 q := by
  have hr : ∀ p c, c ∈ (fun n => if n = 1 then [2] else ([] : List Nat)) p →
      (fun n : Nat => if n = 1 then (1 : Nat) else 0) c <
        (fun n : Nat => if n = 1 then (1 : Nat) else 0) p := by
    intro p c hc
    by_cases hp : p = 1
    · subst hp
      simp at hc
      subst hc
      simp
    · simp [hp] at hc
  exact ⟨hr, c2_descendants_terminate_on_ranked_forests _ _ hr 1⟩

/-! ### Claim C8: character-level facts -/

theorem good_toNat_ge (c : Char) (h : GoodSlugChar c) : 45 ≤ c.toNat := by
  rcases h with ⟨h1, _⟩ | ⟨h1, _⟩ | rfl
  · omega
  · omega
  · decide

theorem good_not_ws (c : Char) (h : GoodSlugChar c) : c.isWhitespace = false := by
  have h45 := good_toNat_ge c h
  by_cases hws : c.isWhitespace
  · rw [Char.isWhitespace] at hws
    simp only [Bool.or_eq_true, decide_eq_true_eq, or_assoc] at hws
    rcases hws with rfl | rfl | rfl | rfl <;> exact absurd h45 (by decide)
  · simpa using hws

theorem toLower_fixed (c : Char) (h : GoodSlugChar c) : c.toLower = c := by
  have hno : ¬(65 ≤ c.toNat ∧ c.toNat ≤ 90) := by
    rcases h with ⟨h1, _⟩ | ⟨h1, h2⟩ | rfl
    · omega
    · omega
    · decide
  unfold Char.toLower
  rw [if_neg hno]

theorem good_keep (c : Char) (h : GoodSlugChar c) : keepSlugChar c = true := by
  rcases h with h' | h' | h'
  · exact decide_eq_true (Or.inl h')
  · exact decide_eq_true (Or.inr (Or.inl h'))
  · exact decide_eq_true (Or.inr (Or.inr (Or.inr h')))

theorem keep_not_ws_good (c : Char) (h1 : keepSlugChar c = true)
    (h2 : c.isWhitespace = false) : GoodSlugChar c := by
  have h := of_decide_eq_true h1
  rcases h with h | h | h | h
  · exact Or.inl h
  · exact Or.inr (Or.inl h)
  · rw [h2] at h
    exact absurd h (by simp)
  · exact Or.inr (Or.inr h)

theorem isDashChar_false_ne (c : Char) (h : isDashChar c = false) : c ≠ '-' := by
  intro he
  subst he
  simp [isDashChar] at h

theorem ne_isDashChar_false (c : Char) (h : c ≠ '-') : isDashChar c = false := by
  simp [isDashChar, h]

/-! ### Claim C8: run-collapsing lemmas -/

theorem mem_collapseAux (p : Char → Bool) (r : Char) :
    ∀ (l : Str) (b : Bool) (c : Char), c ∈ collapseAux p r b l →
      c = r ∨ (c ∈ l ∧ p c = false) := by
  intro l
  induction l with
  | nil => intro b c hc; simp [collapseAux] at hc
  | cons d ds ih =>
    intro b c hc
    by_cases hd : p d
    · rw [collapseAux, if_pos hd] at hc
      rcases b with _ | _
      · simp only [if_neg (by simp : ¬ (false = true))] at hc
        rcases List.mem_cons.1 hc with rfl | hc'
        · exact Or.inl rfl
        · rcases ih true c hc' with h | ⟨h1, h2⟩
          · exact Or.inl h
          · exact Or.inr ⟨List.mem_cons_of_mem d h1, h2⟩
      · simp only [if_pos rfl] at hc
        rcases ih true c hc with h | ⟨h1, h2⟩
        · exact Or.inl h
        · exact Or.inr ⟨List.mem_cons_of_mem d h1, h2⟩
    · rw [collapseAux, if_neg hd] at hc
      rcases List.mem_cons.1 hc with rfl | hc'
      · exact Or.inr ⟨List.mem_cons_self c ds, by simpa using hd⟩
      · rcases ih false c hc' with h | ⟨h1, h2⟩
        · exact Or.inl h
        · exact Or.inr ⟨List.mem_cons_of_mem d h1, h2⟩

theorem collapseAux_head_ne (l : Str) :
    (collapseAux isDashChar '-' true l).head? ≠ some '-' := by
  induction l with
  | nil => simp [collapseAux]
  | cons d ds ih =>
    by_cases hd : isDashChar d
    · rw [collapseAux, if_pos hd]
      simpa using ih
    · rw [collapseAux, if_neg hd]
      simp only [List.head?_cons, ne_eq, Option.some.injEq]
      exact isDashChar_false_ne d (Bool.eq_false_iff.2 hd)

theorem noDoubleDash_cons_of_ne (c : Char) (l : Str) (h : (c == '-') = false) :
    noDoubleDash (c :: l) = noDoubleDash l := by
  cases l with
  | nil => simp [noDoubleDash]
  | cons d ds => simp [noDoubleDash, h]

theorem noDoubleDash_tail (c : Char) (l : Str) (h : noDoubleDash (c :: l) = true) :
    noDoubleDash l = true := by
  cases l with
  | nil => rfl
  | cons d ds =>
    rw [noDoubleDash] at h
    simp only [Bool.and_eq_true] at h
    exact h.2

theorem noDoubleDash_collapseAux (l : Str) :
    ∀ b, noDoubleDash (collapseAux isDashChar '-' b l) = true := by
  induction l with
  | nil => intro b; rfl
  | cons d ds ih =>
    intro b
    by_cases hd : isDashChar d
    · rw [collapseAux, if_pos hd]
      rcases b with _ | _
      · simp only [if_neg (by simp : ¬ (false = true))]
        rcases hr : collapseAux isDashChar '-' true ds with _ | ⟨x, xs⟩
        · rfl
        · have hx : (x == '-') = false := by
            have := collapseAux_head_ne ds
            rw [hr] at this
            simp only [List.head?_cons, ne_eq, Option.some.injEq] at this
            simpa using this
          rw [noDoubleDash]
          simp only [hx, Bool.and_false, Bool.not_false, Bool.true_and]
          have := ih true
          rw [hr] at this
          exact this
      · simp only [if_pos rfl]
        exact ih true
    · rw [collapseAux, if_neg hd]
      have hdne : d ≠ '-' := isDashChar_false_ne d (Bool.eq_false_iff.2 hd)
      rw [noDoubleDash_cons_of_ne d _ (by simpa using hdne)]
      exact ih false

theorem collapseAux_id_of_no_p (p : Char → Bool) (r : Char) :
    ∀ (l : Str) (b : Bool), (∀ c ∈ l, p c = false) → collapseAux p r b l = l := by
  intro l
  induction l with
  | nil => intro b _; rfl
  | cons d ds ih =>
    intro b h
    rw [collapseAux, if_neg (by simp [h d (List.mem_cons_self d ds)])]
    rw [ih false (fun c hc => h c (List.mem_cons_of_mem d hc))]

theorem noDoubleDash_dash_head (l : Str) (h : noDoubleDash ('-' :: l) = true) :
    l.head? ≠ some '-' := by
  cases l with
  | nil => simp
  | cons x xs =>
    rw [noDoubleDash] at h
    intro he
    simp only [List.head?_cons, Option.some.injEq] at he
    subst he
    simp at h

theorem collapseAux_dash_id (l : Str) (h : noDoubleDash l = true) :
    collapseAux isDashChar '-' false l = l := by
  induction l with
  | nil => rfl
  | cons d ds ih =>
    by_cases hd : isDashChar d
    · have hd' : d = '-' := by simpa [isDashChar] using hd
      subst hd'
      rw [collapseAux, if_pos hd]
      simp only [if_neg (by simp : ¬ (false = true))]
      cases ds with
      | nil => rfl
      | cons x xs =>
        have hxne : x ≠ '-' := by
          have := noDoubleDash_dash_head _ h
          simpa using this
        have hxd : isDashChar x = false := ne_isDashChar_false x hxne
        have hxs := ih (noDoubleDash_tail _ _ h)
        rw [collapseAux, if_neg (by simp [hxd])] at hxs
        rw [collapseAux, if_neg (by simp [hxd])]
        rw [List.cons.injEq] at hxs
        rw [hxs.2]
    · rw [collapseAux, if_neg hd]
      rw [ih (noDoubleDash_tail _ _ h)]

/-! ### Claim C8: trimming lemmas -/

theorem mem_dropTrailingDash (l : Str) (c : Char) (hc : c ∈ dropTrailingDash l) :
    c ∈ l := by
  induction l with
  | nil => simpa [dropTrailingDash] using hc
  | cons d ds ih =>
    rw [dropTrailingDash] at hc
    rcases hr : dropTrailingDash ds with _ | ⟨x, xs⟩ <;> rw [hr] at hc
    · by_cases hd : d == '-'
      · simp [hd] at hc
      · simp [hd] at hc
        simp [hc]
    · rcases List.mem_cons.1 hc with rfl | hc'
      · exact List.mem_cons_self _ _
      · exact List.mem_cons_of_mem d (ih (by rw [hr]; exact hc'))

theorem dropTrailingDash_head (l : Str) (x : Char) (t : Str)
    (h : dropTrailingDash l = x :: t) : l.head? = some x := by
  cases l with
  | nil => simp [dropTrailingDash] at h
  | cons d ds =>
    rw [dropTrailingDash] at h
    rcases hr : dropTrailingDash ds with _ | ⟨y, ys⟩ <;> rw [hr] at h
    · by_cases hd : d == '-'
      · simp [hd] at h
      · simp [hd] at h
        simp [h.1]
    · simp only [List.cons.injEq] at h
      simp [h.1]

theorem getLast_dropTrailingDash_ne (l : Str) :
    (dropTrailingDash l).getLast? ≠ some '-' := by
  induction l with
  | nil => simp [dropTrailingDash]
  | cons d ds ih =>
    rw [dropTrailingDash]
    rcases hr : dropTrailingDash ds with _ | ⟨x, xs⟩
    · show List.getLast? (if (d == '-') = true then [] else [d]) ≠ some '-'
      by_cases hd : (d == '-') = true
      · rw [if_pos hd]
        simp
      · rw [if_neg hd]
        intro he
        rw [List.getLast?_singleton] at he
        have hd' : d = '-' := by simpa using he
        subst hd'
        simp at hd
    · show List.getLast? (d :: x :: xs) ≠ some '-'
      rw [List.getLast?_cons_cons]
      rw [hr] at ih
      exact ih

theorem noDoubleDash_dropTrailingDash (l : Str) (h : noDoubleDash l = true) :
    noDoubleDash (dropTrailingDash l) = true := by
  induction l with
  | nil => rfl
  | cons d ds ih =>
    have hds := ih (noDoubleDash_tail _ _ h)
    rw [dropTrailingDash]
    rcases hr : dropTrailingDash ds with _ | ⟨x, xs⟩
    · show noDoubleDash (if (d == '-') = true then [] else [d]) = true
      split
      · rfl
      · rfl
    · show noDoubleDash (d :: x :: xs) = true
      have hhead := dropTrailingDash_head ds x xs hr
      rcases ds with _ | ⟨d2, ds'⟩
      · simp [dropTrailingDash] at hr
      · simp only [List.head?_cons, Option.some.injEq] at hhead
        subst hhead
        rw [noDoubleDash] at h ⊢
        simp only [Bool.and_eq_true] at h ⊢
        refine ⟨h.1, ?_⟩
        rw [hr] at hds
        exact hds

theorem dropTrailingDash_id (l : Str) (h : l.getLast? ≠ some '-') :
    dropTrailingDash l = l := by
  induction l with
  | nil => rfl
  | cons d ds ih =>
    cases ds with
    | nil =>
      rw [dropTrailingDash]
      have hd : ¬ (d == '-') = true := by
        intro hb
        have hb' : d = '-' := by simpa using hb
        subst hb'
        exact h (by simp)
      simp only [dropTrailingDash, if_neg hd]
    | cons e es =>
      rw [List.getLast?_cons_cons] at h
      have he := ih h
      rw [dropTrailingDash, he]

theorem dropWhile_dash_id (l : Str) (h : l.head? ≠ some '-') :
    l.dropWhile isDashChar = l := by
  cases l with
  | nil => rfl
  | cons d ds =>
    have hd : isDashChar d = false := ne_isDashChar_false d (by simpa using h)
    simp [List.dropWhile_cons, hd]

theorem dropWhile_dash_head_ne (l : Str) :
    (l.dropWhile isDashChar).head? ≠ some '-' := by
  induction l with
  | nil => simp
  | cons d ds ih =>
    by_cases hd : isDashChar d
    · rw [List.dropWhile_cons, if_pos hd]
      exact ih
    · rw [List.dropWhile_cons, if_neg hd]
      simp only [List.head?_cons, ne_eq, Option.some.injEq]
      exact isDashChar_false_ne d (Bool.eq_false_iff.2 hd)

theorem noDoubleDash_dropWhile (q : Char → Bool) (l : Str)
    (h : noDoubleDash l = true) : noDoubleDash (l.dropWhile q) = true := by
  induction l with
  | nil => rfl
  | cons d ds ih =>
    by_cases hd : q d
    · rw [List.dropWhile_cons, if_pos hd]
      exact ih (noDoubleDash_tail _ _ h)
    · rw [List.dropWhile_cons, if_neg hd]
      exact h

theorem trimDashes_head_ne (l : Str) : (trimDashes l).head? ≠ some '-' := by
  unfold trimDashes
  rcases hr : dropTrailingDash (l.dropWhile isDashChar) with _ | ⟨x, xs⟩
  · simp
  · have hx := dropTrailingDash_head _ x xs hr
    have hne := dropWhile_dash_head_ne l
    rw [hx] at hne
    simpa using hne

theorem trimDashes_mem (l : Str) (c : Char) (hc : c ∈ trimDashes l) : c ∈ l :=
  (List.dropWhile_sublist isDashChar).subset (mem_dropTrailingDash _ c hc)

theorem trimDashes_noDD (l : Str) (h : noDoubleDash l = true) :
    noDoubleDash (trimDashes l) = true :=
  noDoubleDash_dropTrailingDash _ (noDoubleDash_dropWhile isDashChar l h)

theorem trimDashes_id (l : Str) (h1 : l.head? ≠ some '-')
    (h2 : l.getLast? ≠ some '-') : trimDashes l = l := by
  unfold trimDashes
  rw [dropWhile_dash_id l h1, dropTrailingDash_id l h2]

theorem map_id_of_fixed (f : Char → Char) :
    ∀ l : Str, (∀ c ∈ l, f c = c) → l.map f = l := by
  intro l
  induction l with
  | nil => intro _; rfl
  | cons d ds ih =>
    intro h
    simp only [List.map_cons]
    rw [h d (List.mem_cons_self d ds), ih (fun c hc => h c (List.mem_cons_of_mem d hc))]

/-! ### Claim C8: the slugify theorem -/

theorem slugify_mem_good (s : Str) : ∀ c ∈ slugify s, GoodSlugChar c := by
  intro c hc
  simp only [slugify, collapseRuns] at hc
  have hc1 := trimDashes_mem _ c hc
  rcases mem_collapseAux isDashChar '-' _ false c hc1 with rfl | ⟨hc3, _⟩
  · exact Or.inr (Or.inr rfl)
  · rcases mem_collapseAux (fun c => c.isWhitespace) '-' _ false c hc3 with rfl | ⟨hc4, hws⟩
    · exact Or.inr (Or.inr rfl)
    · exact keep_not_ws_good c (List.of_mem_filter hc4) hws

/-- Claim C8: `slugify` produces only lowercase letters, digits and hyphens,
with no leading hyphen, no trailing hyphen and no two consecutive hyphens,
and it is idempotent. -/
theorem c8_slugify_idempotent_and_shape (s : Str) :
    (∀ c ∈ slugify s, GoodSlugChar c) ∧
    (slugify s).head? ≠ some '-' ∧
    (slugify s).getLast? ≠ some '-' ∧
    noDoubleDash (slugify s) = true ∧
    slugify (slugify s) = slugify s := by
  have hgood := slugify_mem_good s
  have hhead : (slugify s).head? ≠ some '-' := trimDashes_head_ne _
  have hlast : (slugify s).getLast? ≠ some '-' := getLast_dropTrailingDash_ne _
  have hnd : noDoubleDash (slugify s) = true := by
    show noDoubleDash (trimDashes _) = true
    exact trimDashes_noDD _ (noDoubleDash_collapseAux _ false)
  refine ⟨hgood, hhead, hlast, hnd, ?_⟩
  show slugify (slugify s) = slugify s
  have h1 : (slugify s).map Char.toLower = slugify s :=
    map_id_of_fixed _ _ (fun c hc => toLower_fixed c (hgood c hc))
  have h2 : (slugify s).filter keepSlugChar = slugify s :=
    List.filter_eq_self.2 (fun c hc => good_keep c (hgood c hc))
  have h3 : collapseAux (fun c => c.isWhitespace) '-' false (slugify s) = slugify s :=
    collapseAux_id_of_no_p _ '-' _ false (fun c hc => good_not_ws c (hgood c hc))
  have h4 : collapseAux isDashChar '-' false (slugify s) = slugify s :=
    collapseAux_dash_id _ hnd
  show trimDashes (collapseRuns isDashChar '-' (collapseRuns (fun c => c.isWhitespace)
    '-' (((slugify s).map Char.toLower).filter keepSlugChar))) = slugify s
  rw [h1, h2]
  unfold collapseRuns
  rw [h3, h4, trimDashes_id _ hhead hlast]
